import Mathlib

/-!
Verification of the paginated book-preview window manager of a client-side
book-catalog app (source: src/modules/helpers.js).

The source contains three variants of the same pagination contract:

* the `BooksPreview` class (private fields `range`, `page`, `booksSource`, a
  target element receiving rendered previews, and a show-more button whose
  label carries the remaining-books count);
* the closure-based factory `createBooksPreview` (a `current` record with
  `page` and `booksSource`, writing to the global list element and button);
* the stateless free function `createBookPreviewsHTML` recomputing the slice
  range from a page number.

Book items are never inspected by the pagination logic (the rendering step maps each
book to one DOM element, in order), so the materialized DOM children are
modelled as the list of the items themselves.  The show-more button label,
whose only data is the remaining-books number, is modelled as that number.
All JavaScript numbers occurring here are integer-valued; subtraction that
may go negative is done in `Int` exactly where the source does it.
-/

/-- The max number of books that can be loaded on a single page
(`BOOKS_PER_PAGE` in the source). -/
def BOOKS_PER_PAGE : Nat := 36

/-- JavaScript `Array.prototype.slice(start, stop)` for non-negative integer
arguments (the only ones arising in this code base): the elements from index
`start` (inclusive) to `stop` (exclusive), clamped to the array bounds, and
empty when `start ≥ stop` or `start ≥ length`. -/
def jsSlice {α : Type} (l : List α) (start stop : Nat) : List α :=
  (l.drop start).take (stop - start)

/-- The two call-order misuse errors of the window manager.  The source throws
plain `Error`s distinguished by their message; the specification names them
`AlreadyLoadedError` (second `loadFirstPage` without a reset) and
`NotInitializedError` (`loadNextPage` before any `loadFirstPage`). -/
inductive PreviewError : Type where
  | alreadyLoaded : PreviewError
  | notInitialized : PreviewError
deriving DecidableEq

/-- State of a `BooksPreview` class instance together with the DOM cells it
mutates: `rangeStart`/`rangeEnd` embed the private field `range` (initializer
`{ start: 0, end: BOOKS_PER_PAGE }`), `page` embeds the private field `page`
(initializer `null`, here `none`), `targetContent` the children of the target
element (one entry per rendered book, in order), `showMoreRemaining` the
remaining-count number written into the show-more button label, and
`showMoreDisabled` the button `disabled` flag.  `booksPerPage` embeds the
module constant `BOOKS_PER_PAGE`, kept as a parameter so that statements can
quantify over the page size; the source instantiates it with `36`. -/
@[ext]
structure BooksPreview (α : Type) where
  booksPerPage : Nat
  booksSource : List α
  rangeStart : Nat
  rangeEnd : Nat
  page : Option Nat
  targetContent : List α
  showMoreRemaining : Nat
  showMoreDisabled : Bool
deriving DecidableEq

namespace BooksPreview

/-- The private method `updateRemainingBooks` of the class: returns at once
when `page` is `null`; otherwise computes
`max(0, booksSource.length - page * BOOKS_PER_PAGE)`, writes it into the
show-more button label, and disables the button when it is `0`. -/
def updateRemainingBooks {α : Type} (s : BooksPreview α) : BooksPreview α :=
  match s.page with
  | none => s
  | some page =>
      let checkBooksInLibrary : Int :=
        (s.booksSource.length : Int) - page * s.booksPerPage
      let remainingBooks : Nat := (max 0 checkBooksInLibrary).toNat
      let s1 := { s with showMoreRemaining := remainingBooks }
      if remainingBooks = 0 then { s1 with showMoreDisabled := true } else s1

/-- The method `loadFirstPage` of the class: throws when `page` is not `null`
(the throw precedes every mutation, so the error branch returns no state);
otherwise clears the target element, slices `[range.start, range.end)` out of
the books source, appends the rendered previews to the target, sets `page`
to `1`, and updates the remaining-books display. -/
def loadFirstPage {α : Type} (s : BooksPreview α) :
    Except PreviewError (BooksPreview α) :=
  if s.page ≠ none then
    .error .alreadyLoaded
  else
    let s1 := { s with targetContent := [] }
    let extractedBooks := jsSlice s1.booksSource s1.rangeStart s1.rangeEnd
    let s2 := { s1 with targetContent := s1.targetContent ++ extractedBooks }
    let s3 := { s2 with page := some 1 }
    .ok s3.updateRemainingBooks

/-- The method `loadNextPage` of the class: throws when `page` is `null` (the
throw precedes every mutation); otherwise advances both ends of `range` by
`BOOKS_PER_PAGE`, slices the new range out of the books source, appends the
rendered previews to the target, increments `page`, and updates the
remaining-books display. -/
def loadNextPage {α : Type} (s : BooksPreview α) :
    Except PreviewError (BooksPreview α) :=
  match s.page with
  | none => .error .notInitialized
  | some page =>
      let s1 := { s with
        rangeStart := s.rangeStart + s.booksPerPage,
        rangeEnd := s.rangeEnd + s.booksPerPage }
      let extractedBooks := jsSlice s1.booksSource s1.rangeStart s1.rangeEnd
      let s2 := { s1 with targetContent := s1.targetContent ++ extractedBooks }
      let s3 := { s2 with page := some (page + 1) }
      .ok s3.updateRemainingBooks

/-- The setter `currentBooksSource` of the class: resets `range` to
`[0, BOOKS_PER_PAGE)`, resets `page` to `null`, and swaps the books source.
It is a total function: it accepts any sequence, including the empty one. -/
def setCurrentBooksSource {α : Type} (s : BooksPreview α) (newBooksSource : List α) :
    BooksPreview α :=
  { s with
    rangeStart := 0,
    rangeEnd := s.booksPerPage,
    page := none,
    booksSource := newBooksSource }

/-- Iterating `loadNextPage` a number of times, stopping at the first error. -/
def loadNextPages {α : Type} : Nat → BooksPreview α → Except PreviewError (BooksPreview α)
  | 0, s => .ok s
  | k + 1, s =>
      match s.loadNextPage with
      | .error e => .error e
      | .ok t => loadNextPages k t

end BooksPreview

/-- The class constructor: stores the books source and leaves the field
initializers `range = { start: 0, end: BOOKS_PER_PAGE }` and `page = null` in
place.  The constructor does not touch the target element or the show-more
button, so their prior DOM content arrives as the `targetContent`,
`showMoreRemaining` and `showMoreDisabled` arguments. -/
def mkBooksPreview {α : Type} (booksPerPage : Nat) (booksSource : List α)
    (targetContent : List α) (showMoreRemaining : Nat) (showMoreDisabled : Bool) :
    BooksPreview α :=
  { booksPerPage := booksPerPage
    booksSource := booksSource
    rangeStart := 0
    rangeEnd := booksPerPage
    page := none
    targetContent := targetContent
    showMoreRemaining := showMoreRemaining
    showMoreDisabled := showMoreDisabled }

/-- The states of a class instance reachable from construction through its
public operations (`loadFirstPage`, `loadNextPage`, and the
`currentBooksSource` setter; the `currentAuthorsSource` setter touches none of
the fields modelled here, and the `currentPage` setter always throws). -/
inductive Reachable {α : Type} (p : Nat) : BooksPreview α → Prop where
  | construct (S tc : List α) (r : Nat) (d : Bool) :
      Reachable p (mkBooksPreview p S tc r d)
  | first (s t : BooksPreview α) :
      Reachable p s → s.loadFirstPage = .ok t → Reachable p t
  | next (s t : BooksPreview α) :
      Reachable p s → s.loadNextPage = .ok t → Reachable p t
  | replace (s : BooksPreview α) (S2 : List α) :
      Reachable p s → Reachable p (s.setCurrentBooksSource S2)

/-- A window-manager state as produced by the constructor or by the
`currentBooksSource` setter: page size `p`, books source `S`, `page` equal to
`null`, and the slicing range reset to `[0, p)`. -/
def FreshlyReset {α : Type} (p : Nat) (S : List α) (s : BooksPreview α) : Prop :=
  s.booksPerPage = p ∧ s.booksSource = S ∧ s.page = none ∧
    s.rangeStart = 0 ∧ s.rangeEnd = p

/-- The coupled shape of a state in which `n ≥ 1` pages have been materialized
since the last reset: the stored range is `[(n-1)*p, n*p)` (the range of the
last materialized slice), the target holds exactly the first `n*p` items of
the books source (clamped to its length), and the show-more label holds
`max(0, length - n*p)` (natural subtraction). -/
def LoadedInv {α : Type} (p n : Nat) (s : BooksPreview α) : Prop :=
  s.booksPerPage = p ∧ s.page = some n ∧ 1 ≤ n ∧
    s.rangeStart = (n - 1) * p ∧ s.rangeEnd = n * p ∧
    s.targetContent = s.booksSource.take (n * p) ∧
    s.showMoreRemaining = s.booksSource.length - n * p

section CoreLemmas

variable {α : Type}

/-- Characterization of `updateRemainingBooks` when the page counter is set:
only the show-more label and (possibly) the disabled flag change; the label
becomes the natural-number truncation `length - n * p` of
`max(0, length - n * p)`, and the flag is forced to `true` exactly when that
count is `0`, otherwise kept. -/
theorem BooksPreview.updateRemainingBooks_spec (s : BooksPreview α) (n : Nat)
    (h : s.page = some n) :
    s.updateRemainingBooks.booksPerPage = s.booksPerPage ∧
    s.updateRemainingBooks.booksSource = s.booksSource ∧
    s.updateRemainingBooks.rangeStart = s.rangeStart ∧
    s.updateRemainingBooks.rangeEnd = s.rangeEnd ∧
    s.updateRemainingBooks.page = s.page ∧
    s.updateRemainingBooks.targetContent = s.targetContent ∧
    s.updateRemainingBooks.showMoreRemaining =
      s.booksSource.length - n * s.booksPerPage ∧
    s.updateRemainingBooks.showMoreDisabled =
      (if s.booksSource.length - n * s.booksPerPage = 0 then true
        else s.showMoreDisabled) := by
  have hmax : (max 0 ((s.booksSource.length : Int) - (n : Int) * (s.booksPerPage : Int))).toNat
      = s.booksSource.length - n * s.booksPerPage := by omega
  unfold BooksPreview.updateRemainingBooks
  rw [h]
  simp only [hmax]
  split
  · rename_i hzero
    refine ⟨rfl, rfl, rfl, rfl, rfl, rfl, ?_, ?_⟩
    · simp [hzero]
    · simp [hzero]
  · rename_i hzero
    refine ⟨rfl, rfl, rfl, rfl, rfl, rfl, rfl, ?_⟩
    simp [hzero]

end CoreLemmas

/-- Characterization of a successful `loadFirstPage` from an arbitrary state
whose page counter is `null`: the target is cleared and receives the slice
`[range.start, range.end)`, the page counter becomes `1`, and the show-more
display is refreshed. -/
theorem BooksPreview.loadFirstPage_spec {α : Type} (s : BooksPreview α)
    (h : s.page = none) :
    ∃ t, s.loadFirstPage = .ok t ∧
      t.booksPerPage = s.booksPerPage ∧
      t.booksSource = s.booksSource ∧
      t.rangeStart = s.rangeStart ∧
      t.rangeEnd = s.rangeEnd ∧
      t.page = some 1 ∧
      t.targetContent = jsSlice s.booksSource s.rangeStart s.rangeEnd ∧
      t.showMoreRemaining = s.booksSource.length - s.booksPerPage ∧
      t.showMoreDisabled =
        (if s.booksSource.length - s.booksPerPage = 0 then true
          else s.showMoreDisabled) := by
  refine ⟨BooksPreview.updateRemainingBooks
    { s with
      targetContent := jsSlice s.booksSource s.rangeStart s.rangeEnd,
      page := some 1 }, ?_, ?_⟩
  · unfold BooksPreview.loadFirstPage
    rw [h]
    simp
  · have hspec := BooksPreview.updateRemainingBooks_spec
      (α := α)
      { s with
        targetContent := jsSlice s.booksSource s.rangeStart s.rangeEnd,
        page := some 1 } 1 rfl
    simp only at hspec
    obtain ⟨h1, h2, h3, h4, h5, h6, h7, h8⟩ := hspec
    exact ⟨h1, h2, h3, h4, h5, h6, by simpa using h7, by simpa using h8⟩

/-- Characterization of a successful `loadNextPage` from an arbitrary state
whose page counter holds `n`: both range ends advance by the page size, the
slice of the advanced range is appended to the target, the page counter
becomes `n + 1`, and the show-more display is refreshed. -/
theorem BooksPreview.loadNextPage_spec {α : Type} (s : BooksPreview α) (n : Nat)
    (h : s.page = some n) :
    ∃ t, s.loadNextPage = .ok t ∧
      t.booksPerPage = s.booksPerPage ∧
      t.booksSource = s.booksSource ∧
      t.rangeStart = s.rangeStart + s.booksPerPage ∧
      t.rangeEnd = s.rangeEnd + s.booksPerPage ∧
      t.page = some (n + 1) ∧
      t.targetContent = s.targetContent ++
        jsSlice s.booksSource (s.rangeStart + s.booksPerPage) (s.rangeEnd + s.booksPerPage) ∧
      t.showMoreRemaining = s.booksSource.length - (n + 1) * s.booksPerPage ∧
      t.showMoreDisabled =
        (if s.booksSource.length - (n + 1) * s.booksPerPage = 0 then true
          else s.showMoreDisabled) := by
  refine ⟨BooksPreview.updateRemainingBooks
    { s with
      rangeStart := s.rangeStart + s.booksPerPage,
      rangeEnd := s.rangeEnd + s.booksPerPage,
      targetContent := s.targetContent ++
        jsSlice s.booksSource (s.rangeStart + s.booksPerPage)
          (s.rangeEnd + s.booksPerPage),
      page := some (n + 1) }, ?_, ?_⟩
  · unfold BooksPreview.loadNextPage
    rw [h]
  · have hspec := BooksPreview.updateRemainingBooks_spec
      (α := α)
      { s with
        rangeStart := s.rangeStart + s.booksPerPage,
        rangeEnd := s.rangeEnd + s.booksPerPage,
        targetContent := s.targetContent ++
          jsSlice s.booksSource (s.rangeStart + s.booksPerPage)
            (s.rangeEnd + s.booksPerPage),
        page := some (n + 1) } (n + 1) rfl
    simp only at hspec
    obtain ⟨h1, h2, h3, h4, h5, h6, h7, h8⟩ := hspec
    exact ⟨h1, h2, h3, h4, h5, h6, by simpa using h7, by simpa using h8⟩

/-- Slicing from index `0` is a prefix. -/
theorem jsSlice_zero {α : Type} (l : List α) (p : Nat) : jsSlice l 0 p = l.take p := by
  simp [jsSlice]

/-- Slicing a window of width `p` starting at `a`. -/
theorem jsSlice_window {α : Type} (l : List α) (a p : Nat) :
    jsSlice l a (a + p) = (l.drop a).take p := by
  simp [jsSlice]

/-- A `loadFirstPage` from a freshly constructed or freshly reset state
succeeds and establishes the loaded-state shape for one page. -/
theorem BooksPreview.loadFirstPage_fresh {α : Type} {p : Nat} {S : List α}
    {s : BooksPreview α} (h : FreshlyReset p S s) :
    ∃ t, s.loadFirstPage = .ok t ∧ LoadedInv p 1 t ∧ t.booksSource = S ∧
      t.showMoreDisabled =
        (if S.length - p = 0 then true else s.showMoreDisabled) := by
  obtain ⟨hp, hS, hpage, h0, hend⟩ := h
  obtain ⟨t, hok, h1, h2, h3, h4, h5, h6, h7, h8⟩ :=
    BooksPreview.loadFirstPage_spec s hpage
  refine ⟨t, hok, ?_, by rw [h2, hS], ?_⟩
  · refine ⟨by rw [h1, hp], h5, le_refl 1, ?_, ?_, ?_, ?_⟩
    · rw [h3, h0]; ring
    · rw [h4, hend]; ring
    · rw [h6, h2, h0, hend, jsSlice_zero, one_mul]
    · rw [h7, h2, hp, one_mul]
  · rw [h8, hS, hp]

/-- A `loadNextPage` from a loaded state succeeds, appends the next window of
the books source, and establishes the loaded-state shape for one more page. -/
theorem BooksPreview.loadNextPage_loaded {α : Type} {p n : Nat}
    {s : BooksPreview α} (h : LoadedInv p n s) :
    ∃ t, s.loadNextPage = .ok t ∧ LoadedInv p (n + 1) t ∧
      t.booksSource = s.booksSource ∧
      t.showMoreDisabled =
        (if s.booksSource.length - (n + 1) * p = 0 then true
          else s.showMoreDisabled) := by
  obtain ⟨hp, hpage, hn, hstart, hend, htc, hrem⟩ := h
  obtain ⟨t, hok, h1, h2, h3, h4, h5, h6, h7, h8⟩ :=
    BooksPreview.loadNextPage_spec s n hpage
  have hsucc : (n - 1) * p + p = n * p := by
    have hn1 : n - 1 + 1 = n := by omega
    calc (n - 1) * p + p = (n - 1 + 1) * p := by rw [Nat.succ_mul]
    _ = n * p := by rw [hn1]
  have hstart2 : s.rangeStart + s.booksPerPage = n * p := by
    rw [hstart, hp, hsucc]
  have hend2 : s.rangeEnd + s.booksPerPage = n * p + p := by rw [hend, hp]
  refine ⟨t, hok, ?_, h2, ?_⟩
  · refine ⟨by rw [h1, hp], h5, by omega, ?_, ?_, ?_, ?_⟩
    · rw [h3, hstart2]; simp
    · rw [h4, hend2]; ring
    · rw [h6, h2, htc, hstart2, hend2, jsSlice_window, ← List.take_add,
        ← Nat.succ_mul]
    · rw [h7, h2, hp]
  · rw [h8, hp]

/-- Iterating `loadNextPage` from a loaded state never fails and adds one page
per call. -/
theorem BooksPreview.loadNextPages_loaded {α : Type} (k : Nat) {p n : Nat}
    {s : BooksPreview α} (h : LoadedInv p n s) :
    ∃ t, s.loadNextPages k = .ok t ∧ LoadedInv p (n + k) t ∧
      t.booksSource = s.booksSource := by
  induction k generalizing n s with
  | zero => exact ⟨s, rfl, h, rfl⟩
  | succ k ih =>
      obtain ⟨t, hok, hinv, hsrc, _⟩ := BooksPreview.loadNextPage_loaded h
      obtain ⟨u, huok, huinv, husrc⟩ := ih hinv
      refine ⟨u, ?_, ?_, by rw [husrc, hsrc]⟩
      · unfold BooksPreview.loadNextPages
        rw [hok]
        exact huok
      · rw [(by omega : n + (k + 1) = n + 1 + k)]
        exact huinv

/-- The structural invariant of every reachable class state: the page size is
the constructed one, the stored range always has width `booksPerPage`, an
uninitialized state has the range reset to `[0, p)`, and an initialized state
has the full loaded-state shape `LoadedInv`. -/
theorem BooksPreview.reachable_inv {α : Type} {p : Nat} {s : BooksPreview α}
    (h : Reachable p s) :
    s.booksPerPage = p ∧ s.rangeEnd = s.rangeStart + p ∧
      (s.page = none → s.rangeStart = 0 ∧ s.rangeEnd = p) ∧
      (∀ n, s.page = some n → LoadedInv p n s) := by
  induction h with
  | construct S tc r d =>
      refine ⟨rfl, by simp [mkBooksPreview], fun _ => ⟨rfl, rfl⟩, fun n hn => ?_⟩
      simp [mkBooksPreview] at hn
  | first s t hs hok ih =>
      obtain ⟨hp, hwidth, hnone, _⟩ := ih
      have hpage : s.page = none := by
        by_contra hne
        rw [BooksPreview.loadFirstPage, if_pos hne] at hok
        exact Except.noConfusion hok
      obtain ⟨h0, hend⟩ := hnone hpage
      obtain ⟨t', hok', hinv, hsrc, _⟩ :=
        BooksPreview.loadFirstPage_fresh (p := p) (S := s.booksSource)
          ⟨hp, rfl, hpage, h0, hend⟩
      rw [hok] at hok'
      obtain rfl : t = t' := by
        cases hok'
        rfl
      obtain ⟨hp', hpage', hn', hstart', hend', htc', hrem'⟩ := hinv
      refine ⟨hp', by rw [hstart', hend']; ring, ?_, ?_⟩
      · intro hcontra
        rw [hpage'] at hcontra
        exact Option.noConfusion hcontra
      · intro n hn
        rw [hpage'] at hn
        obtain rfl : n = 1 := (Option.some.injEq ..).mp hn.symm
        exact ⟨hp', hpage', hn', hstart', hend', htc', hrem'⟩
  | next s t hs hok ih =>
      obtain ⟨hp, hwidth, _, hloaded⟩ := ih
      obtain ⟨m, hpage⟩ : ∃ m, s.page = some m := by
        cases hcase : s.page with
        | none =>
            rw [BooksPreview.loadNextPage, hcase] at hok
            exact Except.noConfusion hok
        | some m => exact ⟨m, rfl⟩
      obtain ⟨t', hok', hinv, hsrc, _⟩ :=
        BooksPreview.loadNextPage_loaded (hloaded m hpage)
      rw [hok] at hok'
      obtain rfl : t = t' := by
        cases hok'
        rfl
      obtain ⟨hp', hpage', hn', hstart', hend', htc', hrem'⟩ := hinv
      refine ⟨hp', ?_, ?_, ?_⟩
      · rw [hstart', hend']
        have : m + 1 - 1 = m := by omega
        rw [this, Nat.succ_mul]
      · intro hcontra
        rw [hpage'] at hcontra
        exact Option.noConfusion hcontra
      · intro n hn
        rw [hpage'] at hn
        obtain rfl : n = m + 1 := (Option.some.injEq ..).mp hn.symm
        exact ⟨hp', hpage', hn', hstart', hend', htc', hrem'⟩
  | replace s S2 hs ih =>
      obtain ⟨hp, _, _, _⟩ := ih
      refine ⟨hp, by simp [BooksPreview.setCurrentBooksSource, hp], ?_, ?_⟩
      · intro _
        exact ⟨rfl, by simp [BooksPreview.setCurrentBooksSource, hp]⟩
      · intro n hn
        simp [BooksPreview.setCurrentBooksSource] at hn

/-- C1: for every backing sequence `S` and page size `p > 0`, a
`loadFirstPage` on a freshly constructed (first conjunct) or freshly reset
(second conjunct, covering every state the `currentBooksSource` setter can
produce) window manager succeeds, materializes exactly the slice
`S[0 .. min(p, |S|))` — which is `List.take p S` — into the cleared target,
and reports the remaining count `max(0, |S| - p)` — which is the natural
subtraction `S.length - p`. -/
theorem loadFirstPage_first_page_spec {α : Type} (p : Nat) (S tc : List α)
    (r : Nat) (d : Bool) (s0 : BooksPreview α) (hp : 0 < p)
    (hs0 : s0.booksPerPage = p) :
    (∃ t, (mkBooksPreview p S tc r d).loadFirstPage = .ok t ∧
      t.targetContent = S.take p ∧ t.showMoreRemaining = S.length - p) ∧
    (∃ t, (s0.setCurrentBooksSource S).loadFirstPage = .ok t ∧
      t.targetContent = S.take p ∧ t.showMoreRemaining = S.length - p) := by
  have main : ∀ s : BooksPreview α, FreshlyReset p S s →
      ∃ t, s.loadFirstPage = .ok t ∧
        t.targetContent = S.take p ∧ t.showMoreRemaining = S.length - p := by
    intro s hfresh
    obtain ⟨t, hok, hinv, hsrc, _⟩ := BooksPreview.loadFirstPage_fresh hfresh
    obtain ⟨_, _, _, _, _, htc, hrem⟩ := hinv
    exact ⟨t, hok, by rw [htc, hsrc, one_mul], by rw [hrem, hsrc, one_mul]⟩
  exact ⟨main _ ⟨rfl, rfl, rfl, rfl, rfl⟩,
    main _ ⟨hs0, rfl, rfl, rfl, by simp [BooksPreview.setCurrentBooksSource, hs0]⟩⟩

/-- Witness for C1: page size `36`, a three-book source, both from a fresh
construction and from a reset of an already-loaded manager. -/
theorem loadFirstPage_first_page_spec_witness :
    (∃ t, (mkBooksPreview 36 [1, 2, 3] [] 0 false).loadFirstPage = .ok t ∧
      t.targetContent = List.take 36 [1, 2, 3] ∧
      t.showMoreRemaining = [1, 2, 3].length - 36) ∧
    (∃ t, (BooksPreview.setCurrentBooksSource
        (⟨36, List.range 40, 36, 72, some 2, List.range 40, 0, true⟩ :
          BooksPreview Nat) [1, 2, 3]).loadFirstPage = .ok t ∧
      t.targetContent = List.take 36 [1, 2, 3] ∧
      t.showMoreRemaining = [1, 2, 3].length - 36) :=
  loadFirstPage_first_page_spec 36 [1, 2, 3] [] 0 false
    ⟨36, List.range 40, 36, 72, some 2, List.range 40, 0, true⟩
    (by decide) rfl

/-- C2: after one `loadFirstPage` and `k` further `loadNextPage` calls on a
freshly constructed manager over `S` with page size `p`, the concatenation of
all materialized slices in call order — which is exactly the content of the
target element, since the first call clears it and every call appends its
slice — equals `S[0 .. min(|S|, (k+1)*p))`, i.e. `List.take ((k+1)*p) S`: a
prefix of `S`, so no item is duplicated and no item is skipped. -/
theorem loadNextPages_concat_spec {α : Type} (p k : Nat) (S tc : List α)
    (r : Nat) (d : Bool) :
    ∃ s1 t, (mkBooksPreview p S tc r d).loadFirstPage = .ok s1 ∧
      s1.loadNextPages k = .ok t ∧
      t.targetContent = S.take ((k + 1) * p) := by
  obtain ⟨s1, hok, hinv, hsrc, _⟩ :=
    BooksPreview.loadFirstPage_fresh (p := p) (S := S)
      (s := mkBooksPreview p S tc r d) ⟨rfl, rfl, rfl, rfl, rfl⟩
  obtain ⟨t, htok, htinv, htsrc⟩ := BooksPreview.loadNextPages_loaded k hinv
  refine ⟨s1, t, hok, htok, ?_⟩
  obtain ⟨_, _, _, _, _, htc, _⟩ := htinv
  rw [htc, htsrc, hsrc]
  congr 1
  ring

/-- C3: a `loadNextPage` on a reachable state whose next slice starts at or
past the end of the backing sequence (the next start index is `n * p` when
`n` pages are loaded) succeeds — it does not throw — materializes an empty
slice (the target content is unchanged), and reports remaining count `0`. -/
theorem loadNextPage_exhausted_spec {α : Type} (p n : Nat) (s : BooksPreview α)
    (hreach : Reachable p s) (hpage : s.page = some n)
    (hex : s.booksSource.length ≤ n * p) :
    ∃ t, s.loadNextPage = .ok t ∧ t.targetContent = s.targetContent ∧
      t.showMoreRemaining = 0 := by
  have hinv := (BooksPreview.reachable_inv hreach).2.2.2 n hpage
  obtain ⟨t, hok, hinv', hsrc, _⟩ := BooksPreview.loadNextPage_loaded hinv
  obtain ⟨_, _, _, _, _, htc', hrem'⟩ := hinv'
  obtain ⟨_, _, _, _, _, htc, _⟩ := hinv
  have hle : s.booksSource.length ≤ (n + 1) * p := by
    calc s.booksSource.length ≤ n * p := hex
    _ ≤ (n + 1) * p := Nat.mul_le_mul_right p (by omega)
  refine ⟨t, hok, ?_, ?_⟩
  · rw [htc', hsrc, htc, List.take_of_length_le hle, List.take_of_length_le hex]
  · rw [hrem', hsrc]
    omega

/-- Witness for C3: page size `36`, two books, one page loaded (so the next
slice starts at `36 ≥ 2`); the extra `loadNextPage` returns `ok`, leaves the
target at the same two books, and reports `0` remaining. -/
theorem loadNextPage_exhausted_spec_witness :
    ∃ t, (BooksPreview.loadNextPage
        (⟨36, [1, 2], 0, 36, some 1, [1, 2], 0, true⟩ : BooksPreview Nat)) = .ok t ∧
      t.targetContent = (⟨36, [1, 2], 0, 36, some 1, [1, 2], 0, true⟩ :
        BooksPreview Nat).targetContent ∧
      t.showMoreRemaining = 0 :=
  loadNextPage_exhausted_spec 36 1
    ⟨36, [1, 2], 0, 36, some 1, [1, 2], 0, true⟩
    (Reachable.first (mkBooksPreview 36 [1, 2] [] 7 false) _
      (Reachable.construct [1, 2] [] 7 false) (by rfl))
    rfl (by decide)

/-- C4: calling `loadFirstPage` while the page counter is set — which is the
case exactly when a first page was loaded and the backing sequence has not
been replaced since, as those are the only operations writing the counter —
throws `AlreadyLoadedError` and produces no successor state: the throw is the
first statement of the method, before any mutation, so the error branch of
the embedding touches neither the window state nor the output. -/
theorem loadFirstPage_already_loaded_spec {α : Type} (s : BooksPreview α)
    (h : s.page ≠ none) :
    s.loadFirstPage = .error .alreadyLoaded ∧
      ∀ t, s.loadFirstPage ≠ .ok t := by
  constructor
  · rw [BooksPreview.loadFirstPage, if_pos h]
  · intro t hc
    rw [BooksPreview.loadFirstPage, if_pos h] at hc
    exact Except.noConfusion hc

/-- Witness for C4: the state reached by one successful `loadFirstPage` over
a 40-book source; its page counter is `some 1`. -/
theorem loadFirstPage_already_loaded_spec_witness :
    BooksPreview.loadFirstPage
        (⟨36, List.range 40, 0, 36, some 1, List.range 36, 4, false⟩ :
          BooksPreview Nat) = .error .alreadyLoaded ∧
      ∀ t, BooksPreview.loadFirstPage
        (⟨36, List.range 40, 0, 36, some 1, List.range 36, 4, false⟩ :
          BooksPreview Nat) ≠ .ok t :=
  loadFirstPage_already_loaded_spec _ (by decide)

/-- C5: calling `loadNextPage` while the page counter is `null` (no
`loadFirstPage` has succeeded since construction or since the last
backing-sequence replacement) throws `NotInitializedError` and produces no
successor state: the throw is the first statement of the method, before any
mutation, so the failed call leaves the window state unchanged. -/
theorem loadNextPage_not_initialized_spec {α : Type} (s : BooksPreview α)
    (h : s.page = none) :
    s.loadNextPage = .error .notInitialized ∧
      ∀ t, s.loadNextPage ≠ .ok t := by
  constructor
  · rw [BooksPreview.loadNextPage, h]
  · intro t hc
    rw [BooksPreview.loadNextPage, h] at hc
    exact Except.noConfusion hc

/-- Witness for C5: a freshly constructed manager, page counter still
`null`. -/
theorem loadNextPage_not_initialized_spec_witness :
    (mkBooksPreview 36 (List.range 40) ([] : List Nat) 0 false).loadNextPage =
        .error .notInitialized ∧
      ∀ t, (mkBooksPreview 36 (List.range 40) ([] : List Nat) 0 false).loadNextPage
        ≠ .ok t :=
  loadNextPage_not_initialized_spec _ rfl

/-- C6: replacing the backing sequence never fails (the setter is a total
function on all sequences, the empty one included), resets the page counter
to `null` and the cursor range to `[0, p)`, installs the new sequence, and a
subsequent `loadFirstPage` — from any prior state whatsoever — succeeds and
materializes `S2[0 .. min(p, |S2|)) = List.take p S2` with remaining count
`max(0, |S2| - p)`. -/
theorem setCurrentBooksSource_reset_spec {α : Type} (s : BooksPreview α)
    (S2 : List α) :
    (s.setCurrentBooksSource S2).page = none ∧
    (s.setCurrentBooksSource S2).rangeStart = 0 ∧
    (s.setCurrentBooksSource S2).rangeEnd = s.booksPerPage ∧
    (s.setCurrentBooksSource S2).booksSource = S2 ∧
    ∃ t, (s.setCurrentBooksSource S2).loadFirstPage = .ok t ∧
      t.targetContent = S2.take s.booksPerPage ∧
      t.showMoreRemaining = S2.length - s.booksPerPage := by
  refine ⟨rfl, rfl, rfl, rfl, ?_⟩
  obtain ⟨t, hok, hinv, hsrc, _⟩ :=
    BooksPreview.loadFirstPage_fresh (p := s.booksPerPage) (S := S2)
      (s := s.setCurrentBooksSource S2) ⟨rfl, rfl, rfl, rfl, rfl⟩
  obtain ⟨_, _, _, _, _, htc, hrem⟩ := hinv
  exact ⟨t, hok, by rw [htc, hsrc, one_mul], by rw [hrem, hsrc, one_mul]⟩

/-- The state reached over a 37-book source by one `loadFirstPage` (page
size 36): one page of 36 books is materialized and the show-more label
reports 1 remaining book. -/
def staleDemoLoaded : BooksPreview Nat :=
  ⟨36, List.replicate 37 0, 0, 36, some 1, List.replicate 36 0, 1, false⟩

/-- Counterexample to C7 as stated over every reachable state: after one
`loadFirstPage` over a 37-book source, replacing the backing sequence with
the empty sequence resets page and range but clears neither the target
element nor the show-more label (the setter touches only `range`, `page` and
`booksSource`).  In the resulting reachable state the cursor — the exclusive
upper bound of the materialized items, i.e. the target length 36 — exceeds
the new backing length 0, and the reported remaining count is the stale 1,
not `max(0, 0 - 36) = 0`. -/
theorem cursor_remaining_invariant_counterexample :
    Reachable 36 (staleDemoLoaded.setCurrentBooksSource []) ∧
      ¬ ((staleDemoLoaded.setCurrentBooksSource []).targetContent.length ≤
          (staleDemoLoaded.setCurrentBooksSource []).booksSource.length ∧
        (staleDemoLoaded.setCurrentBooksSource []).showMoreRemaining =
          (staleDemoLoaded.setCurrentBooksSource []).booksSource.length -
            (staleDemoLoaded.setCurrentBooksSource []).targetContent.length) :=
  ⟨Reachable.replace staleDemoLoaded []
      (Reachable.first (mkBooksPreview 36 (List.replicate 37 0) [] 0 false)
        staleDemoLoaded
        (Reachable.construct (List.replicate 37 0) [] 0 false) (by rfl)),
    by decide⟩

/-- C7 (amended): in every reachable state in which a first page has been
loaded since the last reset (the page counter holds some `n`), the cursor —
the exclusive upper bound of materialized items, i.e. the length of the
target content — never exceeds the backing sequence length, and the reported
remaining count equals `max(0, length - cursor)`, i.e. the natural
subtraction `length - cursor`, hence is never negative.  (In the
uninitialized states produced by a backing-sequence replacement the target
and the label are stale, as the counterexample shows.) -/
theorem cursor_remaining_loaded_invariant {α : Type} (p n : Nat)
    (s : BooksPreview α) (hreach : Reachable p s) (hpage : s.page = some n) :
    s.targetContent.length ≤ s.booksSource.length ∧
      s.showMoreRemaining = s.booksSource.length - s.targetContent.length := by
  have hinv := (BooksPreview.reachable_inv hreach).2.2.2 n hpage
  obtain ⟨_, _, _, _, _, htc, hrem⟩ := hinv
  constructor
  · rw [htc, List.length_take]
    exact Nat.min_le_right _ _
  · rw [hrem, htc, List.length_take]
    omega

/-- Witness for the amended C7 at the one-page state over a 37-book source:
36 materialized items against backing length 37, reported remaining `1 =
37 - 36`. -/
theorem cursor_remaining_loaded_invariant_witness :
    staleDemoLoaded.targetContent.length ≤ staleDemoLoaded.booksSource.length ∧
      staleDemoLoaded.showMoreRemaining =
        staleDemoLoaded.booksSource.length - staleDemoLoaded.targetContent.length :=
  cursor_remaining_loaded_invariant 36 1 staleDemoLoaded
    (Reachable.first (mkBooksPreview 36 (List.replicate 37 0) [] 0 false)
      staleDemoLoaded
      (Reachable.construct (List.replicate 37 0) [] 0 false) (by rfl))
    rfl

/-- C9: in every reachable state of the page-36 window manager, if the page
counter is `null` then the stored slice range — the range the next
`loadFirstPage` would materialize — is `[0, 36)`, and if the page counter
holds `n` then `n ≥ 1` and the stored range — the range of the last
materialized slice — is `[(n-1)*36, n*36)`.  Stating it over `Reachable`
covers preservation by construction, `loadFirstPage`, `loadNextPage` and
backing-source replacement at once. -/
theorem page_range_coupling_spec {α : Type} (s : BooksPreview α)
    (h : Reachable 36 s) :
    (s.page = none → s.rangeStart = 0 ∧ s.rangeEnd = 36) ∧
      (∀ n, s.page = some n →
        1 ≤ n ∧ s.rangeStart = (n - 1) * 36 ∧ s.rangeEnd = n * 36) := by
  obtain ⟨_, _, hnone, hloaded⟩ := BooksPreview.reachable_inv h
  refine ⟨hnone, fun n hn => ?_⟩
  obtain ⟨_, _, h1, h2, h3, _, _⟩ := hloaded n hn
  exact ⟨h1, h2, h3⟩

/-- Witness for C9 at a freshly constructed manager: page `null`, range
`[0, 36)`. -/
theorem page_range_coupling_spec_witness :
    ((mkBooksPreview 36 [1, 2, 3] ([] : List Nat) 0 false).page = none →
      (mkBooksPreview 36 [1, 2, 3] ([] : List Nat) 0 false).rangeStart = 0 ∧
        (mkBooksPreview 36 [1, 2, 3] ([] : List Nat) 0 false).rangeEnd = 36) ∧
      (∀ n, (mkBooksPreview 36 [1, 2, 3] ([] : List Nat) 0 false).page = some n →
        1 ≤ n ∧
          (mkBooksPreview 36 [1, 2, 3] ([] : List Nat) 0 false).rangeStart =
            (n - 1) * 36 ∧
          (mkBooksPreview 36 [1, 2, 3] ([] : List Nat) 0 false).rangeEnd =
            n * 36) :=
  page_range_coupling_spec _ (Reachable.construct [1, 2, 3] [] 0 false)

/-- C10: the show-more disable latch is one-way.  Every successful
`loadFirstPage` or `loadNextPage` (i) keeps the disabled flag `true` if it
already was — the display update only ever assigns `disabled = true`, never
`false` — and (ii) sets it to `true` whenever the freshly computed remaining
count is `0`; the backing-source setter leaves the flag untouched; and in
particular, after the flag was set by exhaustion, replacing the backing
sequence with any sequence (non-empty and non-exhausted included) and calling
`loadFirstPage` still leaves the control disabled. -/
theorem show_more_disabled_latch_spec {α : Type} (s : BooksPreview α) :
    (∀ t, s.loadFirstPage = .ok t →
      (s.showMoreDisabled = true → t.showMoreDisabled = true) ∧
      (t.showMoreRemaining = 0 → t.showMoreDisabled = true)) ∧
    (∀ t, s.loadNextPage = .ok t →
      (s.showMoreDisabled = true → t.showMoreDisabled = true) ∧
      (t.showMoreRemaining = 0 → t.showMoreDisabled = true)) ∧
    (∀ S2, (s.setCurrentBooksSource S2).showMoreDisabled = s.showMoreDisabled) ∧
    (∀ S2 t, s.showMoreDisabled = true →
      (s.setCurrentBooksSource S2).loadFirstPage = .ok t →
      t.showMoreDisabled = true) := by
  have hfirst : ∀ u : BooksPreview α, ∀ t, u.loadFirstPage = .ok t →
      (u.showMoreDisabled = true → t.showMoreDisabled = true) ∧
      (t.showMoreRemaining = 0 → t.showMoreDisabled = true) := by
    intro u t hok
    have hpage : u.page = none := by
      by_contra hne
      rw [BooksPreview.loadFirstPage, if_pos hne] at hok
      exact Except.noConfusion hok
    obtain ⟨t', hok', _, _, _, _, _, _, hrem', hdis'⟩ :=
      BooksPreview.loadFirstPage_spec u hpage
    rw [hok] at hok'
    obtain rfl : t = t' := by
      cases hok'
      rfl
    constructor
    · intro hd
      rw [hdis', hd]
      split <;> rfl
    · intro hz
      rw [hrem'] at hz
      rw [hdis', if_pos hz]
  refine ⟨hfirst s, ?_, fun _ => rfl, ?_⟩
  · intro t hok
    obtain ⟨m, hpage⟩ : ∃ m, s.page = some m := by
      cases hcase : s.page with
      | none =>
          rw [BooksPreview.loadNextPage, hcase] at hok
          exact Except.noConfusion hok
      | some m => exact ⟨m, rfl⟩
    obtain ⟨t', hok', _, _, _, _, _, _, hrem', hdis'⟩ :=
      BooksPreview.loadNextPage_spec s m hpage
    rw [hok] at hok'
    obtain rfl : t = t' := by
      cases hok'
      rfl
    constructor
    · intro hd
      rw [hdis', hd]
      split <;> rfl
    · intro hz
      rw [hrem'] at hz
      rw [hdis', if_pos hz]
  · intro S2 t hd hok
    exact (hfirst (s.setCurrentBooksSource S2) t hok).1 hd

/-- Witness for C10: an exhausted, disabled manager over a two-book source
whose backing sequence is replaced by the non-empty, non-exhausted 40-book
source `List.range 40`; `loadFirstPage` then reports 4 remaining books yet
the control stays disabled. -/
theorem show_more_disabled_latch_spec_witness :
    (BooksPreview.setCurrentBooksSource
        (⟨36, [1, 2], 36, 72, some 2, [1, 2], 0, true⟩ : BooksPreview Nat)
        (List.range 40)).loadFirstPage =
      .ok ⟨36, List.range 40, 0, 36, some 1, List.range 36, 4, true⟩ ∧
    (⟨36, List.range 40, 0, 36, some 1, List.range 36, 4, true⟩ :
      BooksPreview Nat).showMoreRemaining = 4 ∧
    (⟨36, List.range 40, 0, 36, some 1, List.range 36, 4, true⟩ :
      BooksPreview Nat).showMoreDisabled = true :=
  ⟨by rfl, rfl,
    (show_more_disabled_latch_spec
        (⟨36, [1, 2], 36, 72, some 2, [1, 2], 0, true⟩ : BooksPreview Nat)).2.2.2
      (List.range 40) _ rfl (by rfl)⟩

/-- The stateless free function `createBookPreviewsHTML`: slices
`[pageNum * BOOKS_PER_PAGE, (pageNum + 1) * BOOKS_PER_PAGE)` out of the books
source (default `pageNum = 0`) and returns a fragment with one preview
element per sliced book, in order — modelled as the sliced books
themselves. -/
def createBookPreviewsHTML {α : Type} (booksSource : List α)
    (pageNum : Nat := 0) : List α :=
  let startingRange := pageNum * BOOKS_PER_PAGE
  let endingRange := (pageNum + 1) * BOOKS_PER_PAGE
  jsSlice booksSource startingRange endingRange

/-- State of the closure-based factory variant `createBooksPreview`: the
`current` record fields `page` (initializer `1`) and `booksSource`, together
with the global list element content and the list button cells it writes. -/
structure BooksPreviewObj (α : Type) where
  page : Nat
  booksSource : List α
  listItems : List α
  listButtonRemaining : Nat
  listButtonDisabled : Bool
deriving DecidableEq

/-- The helper `disableListButton`: disables the list button. -/
def disableListButton {α : Type} (s : BooksPreviewObj α) : BooksPreviewObj α :=
  { s with listButtonDisabled := true }

namespace BooksPreviewObj

/-- The method `updateRemainingBooks` of the factory record: the JavaScript expression
`(check > 0 && check) || 0` evaluates to `check` when positive and to `0`
otherwise; the result (always non-negative, stored here as its `toNat`) is
written into the button label, and `disableListButton` runs when it is
`0`. -/
def updateRemainingBooks {α : Type} (s : BooksPreviewObj α) : BooksPreviewObj α :=
  let checkBooksInLibrary : Int :=
    (s.booksSource.length : Int) - s.page * BOOKS_PER_PAGE
  let remainingBooks : Int :=
    if 0 < checkBooksInLibrary then checkBooksInLibrary else 0
  let s1 := { s with listButtonRemaining := remainingBooks.toNat }
  if remainingBooks = 0 then disableListButton s1 else s1

/-- The method `loadFirstPage` of the factory: resets `page` to `1` when it is not `1`,
clears the list element, appends the fragment for the default page number
`0`, and updates the remaining-books display.  It never throws. -/
def loadFirstPage {α : Type} (s : BooksPreviewObj α) : BooksPreviewObj α :=
  let s1 := if s.page ≠ 1 then { s with page := 1 } else s
  let s2 := { s1 with listItems := [] }
  let s3 := { s2 with
    listItems := s2.listItems ++ createBookPreviewsHTML s2.booksSource }
  s3.updateRemainingBooks

/-- The method `loadNextPage` of the factory: appends the fragment for the current page
number, increments `page`, and updates the remaining-books display.  It never
throws. -/
def loadNextPage {α : Type} (s : BooksPreviewObj α) : BooksPreviewObj α :=
  let s1 := { s with
    listItems := s.listItems ++ createBookPreviewsHTML s.booksSource s.page }
  let s2 := { s1 with page := s1.page + 1 }
  s2.updateRemainingBooks

/-- Iterating the `loadNextPage` of the factory. -/
def loadNextPages {α : Type} : Nat → BooksPreviewObj α → BooksPreviewObj α
  | 0, s => s
  | k + 1, s => loadNextPages k s.loadNextPage

end BooksPreviewObj

/-- The factory `createBooksPreview`: builds the `current` record with
`page = 1` and the given books source; the list element and button arrive
with their prior DOM content. -/
def createBooksPreview {α : Type} (booksSource : List α) (listItems : List α)
    (listButtonRemaining : Nat) (listButtonDisabled : Bool) : BooksPreviewObj α :=
  { page := 1
    booksSource := booksSource
    listItems := listItems
    listButtonRemaining := listButtonRemaining
    listButtonDisabled := listButtonDisabled }

/-- The loaded-state shape of the factory variant after `n` pages. -/
def ObjInv {α : Type} (n : Nat) (s : BooksPreviewObj α) : Prop :=
  s.page = n ∧ 1 ≤ n ∧
    s.listItems = s.booksSource.take (n * BOOKS_PER_PAGE) ∧
    s.listButtonRemaining = s.booksSource.length - n * BOOKS_PER_PAGE

/-- Characterization of the `updateRemainingBooks` method of the factory. -/
theorem updateRemainingBooksObj_spec {α : Type}
    (s : BooksPreviewObj α) :
    s.updateRemainingBooks.page = s.page ∧
    s.updateRemainingBooks.booksSource = s.booksSource ∧
    s.updateRemainingBooks.listItems = s.listItems ∧
    s.updateRemainingBooks.listButtonRemaining =
      s.booksSource.length - s.page * BOOKS_PER_PAGE ∧
    s.updateRemainingBooks.listButtonDisabled =
      (if s.booksSource.length - s.page * BOOKS_PER_PAGE = 0 then true
        else s.listButtonDisabled) := by
  have h1 : (if 0 < (s.booksSource.length : Int) - s.page * BOOKS_PER_PAGE
        then (s.booksSource.length : Int) - s.page * BOOKS_PER_PAGE
        else 0).toNat = s.booksSource.length - s.page * BOOKS_PER_PAGE := by
    split <;> omega
  have h2 : ((if 0 < (s.booksSource.length : Int) - s.page * BOOKS_PER_PAGE
        then (s.booksSource.length : Int) - s.page * BOOKS_PER_PAGE
        else 0) = 0) ↔
      (s.booksSource.length - s.page * BOOKS_PER_PAGE = 0) := by
    split <;> omega
  simp only [BooksPreviewObj.updateRemainingBooks, disableListButton, h1, h2]
  split
  · exact ⟨rfl, rfl, rfl, rfl, rfl⟩
  · exact ⟨rfl, rfl, rfl, rfl, rfl⟩

/-- A `loadFirstPage` of the factory variant from a state whose page is `1`
(as produced by `createBooksPreview`) materializes the first page and
establishes the loaded-state shape. -/
theorem loadFirstPageObj_fresh {α : Type} (s : BooksPreviewObj α)
    (h : s.page = 1) :
    ObjInv 1 s.loadFirstPage ∧ s.loadFirstPage.booksSource = s.booksSource := by
  simp only [BooksPreviewObj.loadFirstPage, h]
  simp only [ne_eq, not_true_eq_false, if_false]
  obtain ⟨h1, h2, h3, h4, h5⟩ := updateRemainingBooksObj_spec
    { s with listItems := [] ++ createBookPreviewsHTML s.booksSource }
  refine ⟨⟨?_, le_refl 1, ?_, ?_⟩, ?_⟩
  · rw [h1]; exact h
  · rw [h3, h2]
    simp [createBookPreviewsHTML, jsSlice]
  · rw [h4, h2]
    simp [h]
  · rw [h2]

/-- A `loadNextPage` step of the factory variant from a loaded state appends the
next window and establishes the loaded-state shape for one more page. -/
theorem loadNextPageObj_loaded {α : Type} {n : Nat} {s : BooksPreviewObj α}
    (h : ObjInv n s) :
    ObjInv (n + 1) s.loadNextPage ∧ s.loadNextPage.booksSource = s.booksSource := by
  obtain ⟨hpage, hn, hitems, hrem⟩ := h
  simp only [BooksPreviewObj.loadNextPage]
  obtain ⟨h1, h2, h3, h4, h5⟩ := updateRemainingBooksObj_spec
    { s with
      listItems := s.listItems ++ createBookPreviewsHTML s.booksSource s.page,
      page := s.page + 1 }
  refine ⟨⟨?_, by omega, ?_, ?_⟩, ?_⟩
  · rw [h1]; simp [hpage]
  · rw [h3, h2]
    simp only [hitems, hpage]
    rw [(by rw [Nat.succ_mul] : (n + 1) * BOOKS_PER_PAGE
        = n * BOOKS_PER_PAGE + BOOKS_PER_PAGE)]
    rw [show createBookPreviewsHTML s.booksSource n =
        jsSlice s.booksSource (n * BOOKS_PER_PAGE)
          (n * BOOKS_PER_PAGE + BOOKS_PER_PAGE) from ?_]
    · rw [jsSlice_window, ← List.take_add]
    · simp only [createBookPreviewsHTML]
      congr 1
      ring
  · rw [h4, h2]
    simp [hpage]
  · rw [h2]

/-- Iterating the `loadNextPage` of the factory from a loaded state adds one page
per call. -/
theorem loadNextPagesObj_loaded {α : Type} (k : Nat) {n : Nat}
    {s : BooksPreviewObj α} (h : ObjInv n s) :
    ObjInv (n + k) (BooksPreviewObj.loadNextPages k s) ∧
      (BooksPreviewObj.loadNextPages k s).booksSource = s.booksSource := by
  induction k generalizing n s with
  | zero => exact ⟨h, rfl⟩
  | succ k ih =>
      obtain ⟨hstep, hsrc⟩ := loadNextPageObj_loaded h
      obtain ⟨hinv, hsrc'⟩ := ih hstep
      refine ⟨?_, by rw [BooksPreviewObj.loadNextPages, hsrc', hsrc]⟩
      rw [BooksPreviewObj.loadNextPages,
        (by omega : n + (k + 1) = n + 1 + k)]
      exact hinv

/-- The concatenation of the stateless fragments for page numbers
`0, 1, …, k` is the prefix of the books source of length
`(k + 1) * BOOKS_PER_PAGE`. -/
theorem flatten_createBookPreviews {α : Type} (S : List α) (k : Nat) :
    ((List.range (k + 1)).map (fun j => createBookPreviewsHTML S j)).flatten =
      S.take ((k + 1) * BOOKS_PER_PAGE) := by
  induction k with
  | zero =>
      rw [List.range_succ, List.range_zero]
      simp [createBookPreviewsHTML, jsSlice]
  | succ k ih =>
      have harith : (k + 1 + 1) * BOOKS_PER_PAGE
          = (k + 1) * BOOKS_PER_PAGE + BOOKS_PER_PAGE := by ring
      have hw : createBookPreviewsHTML S (k + 1) =
          jsSlice S ((k + 1) * BOOKS_PER_PAGE)
            ((k + 1) * BOOKS_PER_PAGE + BOOKS_PER_PAGE) := by
        simp only [createBookPreviewsHTML]
        rw [harith]
      rw [List.range_succ, List.map_append, List.flatten_append, ih]
      simp only [List.map_cons, List.map_nil, List.flatten_cons,
        List.flatten_nil, List.append_nil]
      rw [harith, hw, jsSlice_window, ← List.take_add]

/-- C8: the three pagination variants agree.  For every books source `S` and
the source page size `BOOKS_PER_PAGE = 36`, after one `loadFirstPage` and `k`
further `loadNextPage` calls — the valid call sequences — the class variant
and the closure-based factory variant hold the same materialized items and
report the same remaining count, and the common item sequence equals the
concatenation of the stateless `createBookPreviewsHTML` fragments for page
numbers `0, …, k`; since each call appends exactly one fragment, agreement of
the concatenations at every `k` gives agreement of the individual page
slices.  (The stateless function computes slices only; it reports no
remaining count of its own.) -/
theorem three_variants_agree {α : Type} (S tc tc2 : List α) (r r2 : Nat)
    (d d2 : Bool) (k : Nat) :
    BOOKS_PER_PAGE = 36 ∧
    ∃ s1 c, (mkBooksPreview BOOKS_PER_PAGE S tc r d).loadFirstPage = .ok s1 ∧
      s1.loadNextPages k = .ok c ∧
      c.targetContent =
        (BooksPreviewObj.loadNextPages k
          (createBooksPreview S tc2 r2 d2).loadFirstPage).listItems ∧
      c.showMoreRemaining =
        (BooksPreviewObj.loadNextPages k
          (createBooksPreview S tc2 r2 d2).loadFirstPage).listButtonRemaining ∧
      (BooksPreviewObj.loadNextPages k
          (createBooksPreview S tc2 r2 d2).loadFirstPage).listItems =
        ((List.range (k + 1)).map (fun j => createBookPreviewsHTML S j)).flatten := by
  refine ⟨rfl, ?_⟩
  obtain ⟨s1, hok, hinv, hsrc, _⟩ :=
    BooksPreview.loadFirstPage_fresh (p := BOOKS_PER_PAGE) (S := S)
      (s := mkBooksPreview BOOKS_PER_PAGE S tc r d) ⟨rfl, rfl, rfl, rfl, rfl⟩
  obtain ⟨c, hcok, hcinv, hcsrc⟩ := BooksPreview.loadNextPages_loaded k hinv
  obtain ⟨_, _, _, _, _, hctc, hcrem⟩ := hcinv
  obtain ⟨hf1, hfsrc1⟩ :=
    loadFirstPageObj_fresh (createBooksPreview S tc2 r2 d2) rfl
  obtain ⟨hfinv, hfsrc⟩ := loadNextPagesObj_loaded k hf1
  obtain ⟨_, _, hfitems, hfrem⟩ := hfinv
  have hfsrcS : (BooksPreviewObj.loadNextPages k
      (createBooksPreview S tc2 r2 d2).loadFirstPage).booksSource = S := by
    rw [hfsrc, hfsrc1]
    rfl
  refine ⟨s1, c, hok, hcok, ?_, ?_, ?_⟩
  · rw [hctc, hcsrc, hsrc, hfitems, hfsrcS]
  · rw [hcrem, hcsrc, hsrc, hfrem, hfsrcS]
  · rw [hfitems, hfsrcS, flatten_createBookPreviews]
    congr 1
    ring
